import Mathlib

/-!
Verification of the storage reliability subsystem of the wallet repository:
the storage enhancers (atomic write, checksum, write queue, debounce) from
packages/core/src/service-factory/storage/enhancers.ts, the composition
pipeline createSafeStorage, and the persistent-store hydration engine from
packages/core/src/service-factory/factory.ts.

The embedding models the synchronous execution path: every backend call is a
state transition on an explicit store, and a JS exception is an
Except.error carrying the state at throw time.  The synchronous and
asynchronous implementations of each enhancer perform the same sequence of
backend operations (the async variant only adds per-key mutual exclusion,
which is vacuous in the sequential semantics modelled here).
-/

set_option maxHeartbeats 1000000

namespace WalletStorage

/-- State-threading result monad: a JS call that may throw.  The error case
carries the backend state at throw time, so that theorems can speak about
what a failed operation left behind. -/
def M (σ α : Type) : Type := σ → Except (String × σ) (α × σ)

instance : Monad (M σ) where
  pure a := fun s => Except.ok (a, s)
  bind m f := fun s =>
    match m s with
    | Except.error e => Except.error e
    | Except.ok (a, s') => f a s'

/-- Model of a JS throw statement. -/
def throwM (msg : String) : M σ α := fun s => Except.error (msg, s)

theorem M.bind_apply (m : M σ α) (f : α → M σ β) (s : σ) :
    (m >>= f) s = match m s with
      | Except.error e => Except.error e
      | Except.ok (a, s') => f a s' := rfl

theorem M.pure_apply (a : α) (s : σ) : (pure a : M σ α) s = Except.ok (a, s) := rfl

theorem M.bind_ok {m : M σ α} {f : α → M σ β} {s s' : σ} {a : α}
    {r : Except (String × σ) (β × σ)}
    (hm : m s = Except.ok (a, s')) (hf : f a s' = r) : (m >>= f) s = r := by
  rw [M.bind_apply, hm]
  exact hf

/-- The in-memory backend state: a finite map of string keys to string
values, as held by the Map of createMemoryStorage
(service-factory/testing.ts) and createMemoryStorageAdapter
(service-factory/__tests__/test-utils.ts). -/
def Store : Type := String → Option String

/-- storage.set(key, value) on the backend Map. -/
def Store.set (s : Store) (k v : String) : Store :=
  fun k' => if k' = k then some v else s k'

/-- storage.delete(key) on the backend Map. -/
def Store.del (s : Store) (k : String) : Store :=
  fun k' => if k' = k then none else s k'

/-- An empty backend. -/
def Store.empty : Store := fun _ => none

theorem Store.set_self (s : Store) (k v : String) : s.set k v k = some v := by
  simp [Store.set]

theorem Store.set_other (s : Store) (k v k' : String) (h : k' ≠ k) :
    s.set k v k' = s k' := by
  simp [Store.set, h]

theorem Store.del_self (s : Store) (k : String) : s.del k k = none := by
  simp [Store.del]

theorem Store.del_other (s : Store) (k k' : String) (h : k' ≠ k) :
    s.del k k' = s k' := by
  simp [Store.del, h]

/-- The StorageAdapter contract, the shape every backend and enhancer
satisfies.  Each operation additionally receives the current clock value
(JS Date.now) because the checksum envelope records a timestamp, and the
debounce enhancer consults timers.  The extra fire operation models the
host environment delivering an expired timer callback for a key; it is the
identity for every adapter except the debounce enhancer, which is the only
component that arms timers. -/
structure TAdapter (σ : Type) where
  getItem : Nat → String → M σ (Option String)
  setItem : Nat → String → String → M σ Unit
  removeItem : Nat → String → M σ Unit
  fire : Nat → String → M σ Unit

/-- The in-memory backend adapter (createMemoryStorage /
createMemoryStorageAdapter): getItem is storage.get(key) with null for a
missing key, setItem is storage.set, removeItem is storage.delete. -/
def memAdapter : TAdapter Store where
  getItem _ k := fun s => Except.ok (s k, s)
  setItem _ k v := fun s => Except.ok ((), s.set k v)
  removeItem _ k := fun s => Except.ok ((), s.del k)
  fire _ _ := pure ()

/-- JS truthiness of a string-or-null value: null and the empty string are
falsy.  The enhancers test values with bare if statements, so the empty
string takes the same branches as an absent value. -/
def truthy : Option String → Bool
  | none => false
  | some v => !(v == "")

theorem truthy_none : truthy none = false := rfl

theorem truthy_some (v : String) (h : v ≠ "") : truthy (some v) = true := by
  simp [truthy, h]

theorem truthy_empty : truthy (some "") = false := rfl

/-- Atomic write enhancer, the synchronous code path of withAtomic in
storage/enhancers.ts (syncGetItem, syncSetItem, syncRemoveItem).  The
lazy sync/async detection probe is elided: it only inspects whether
base.getItem returns a promise and discards the result, and here the
result is always a plain value.  The async path performs the identical
sequence of backend calls under a per-key lock. -/
def withAtomic (base : TAdapter σ) : TAdapter σ where
  getItem now key :=
    base.getItem now key >>= fun result =>
    if truthy result then
      pure result
    else
      base.getItem now (key ++ ".bak") >>= fun backup =>
      if truthy backup then
        base.setItem now key (backup.getD "") >>= fun _ => pure backup
      else
        pure result
  setItem now key value :=
    base.getItem now key >>= fun current =>
    (if truthy current then
      base.setItem now (key ++ ".bak") (current.getD "")
    else
      pure ()) >>= fun _ =>
    base.setItem now (key ++ ".tmp") value >>= fun _ =>
    base.getItem now (key ++ ".tmp") >>= fun written =>
    match written with
    | some w =>
      if w = value then
        base.setItem now key w >>= fun _ => base.removeItem now (key ++ ".tmp")
      else
        throwM ("[Atomic] Write verification failed: " ++ key)
    | none => throwM ("[Atomic] Write verification failed: " ++ key)
  removeItem now key :=
    base.removeItem now key >>= fun _ =>
    base.removeItem now (key ++ ".bak") >>= fun _ =>
    base.removeItem now (key ++ ".tmp")
  fire now key := base.fire now key

theorem key_ne_append (k a : String) (h : a ≠ "") : k ++ a ≠ k := by
  intro he
  have hl := congrArg String.length he
  rw [String.length_append] at hl
  have hz : a.length = 0 := by omega
  apply h
  cases a with
  | mk d =>
    have : d = [] := List.length_eq_zero.mp hz
    simp [this]

theorem bak_ne_key (k : String) : k ++ ".bak" ≠ k :=
  key_ne_append k ".bak" (by decide)

theorem tmp_ne_key (k : String) : k ++ ".tmp" ≠ k :=
  key_ne_append k ".tmp" (by decide)

theorem append_ne_append (k a b : String) (h : a.data ≠ b.data) :
    k ++ a ≠ k ++ b := by
  intro he
  have hd := congrArg String.data he
  simp only [String.data_append] at hd
  exact h (List.append_cancel_left hd)

theorem bak_ne_tmp (k : String) : k ++ ".bak" ≠ k ++ ".tmp" :=
  append_ne_append k ".bak" ".tmp" (by decide)

theorem tmp_ne_bak (k : String) : k ++ ".tmp" ≠ k ++ ".bak" :=
  append_ne_append k ".tmp" ".bak" (by decide)

/-- Run an operation for its state effect (errors also leave a state). -/
def execM (m : M σ Unit) (s : σ) : σ :=
  match m s with
  | Except.ok (_, s') => s'
  | Except.error (_, s') => s'

/-- Result of a read, discarding the final state; none when it threw. -/
def getRes (m : M σ (Option String)) (s : σ) : Option (Option String) :=
  match m s with
  | Except.ok (r, _) => some r
  | Except.error _ => none

/-- Closed form of the atomic enhancer's setItem over the in-memory
backend: it always succeeds (the map read-back is exact), backs up the
current value only when that value is truthy, and commits through the
temporary key. -/
theorem atomic_mem_set_eq (now : Nat) (k v : String) (s : Store) :
    (withAtomic memAdapter).setItem now k v s =
      Except.ok ((),
        ((((if truthy (s k) then s.set (k ++ ".bak") ((s k).getD "") else s).set
          (k ++ ".tmp") v).set k v).del (k ++ ".tmp"))) := by
  by_cases h : truthy (s k) <;>
    simp [withAtomic, memAdapter, M.bind_apply, M.pure_apply, h, Store.set_self,
      Bind.bind, Pure.pure]

/-- Closed form of the atomic enhancer's getItem over the in-memory
backend: a truthy primary value is returned as-is; otherwise a truthy
backup is rewritten to the primary key and returned. -/
theorem atomic_mem_get_eq (now : Nat) (k : String) (s : Store) :
    (withAtomic memAdapter).getItem now k s =
      if truthy (s k) then Except.ok (s k, s)
      else if truthy (s (k ++ ".bak")) then
        Except.ok (s (k ++ ".bak"), s.set k ((s (k ++ ".bak")).getD ""))
      else Except.ok (s k, s) := by
  by_cases h1 : truthy (s k)
  · simp [withAtomic, memAdapter, M.bind_apply, M.pure_apply, h1, Bind.bind, Pure.pure]
  · by_cases h2 : truthy (s (k ++ ".bak")) <;>
      simp [withAtomic, memAdapter, M.bind_apply, M.pure_apply, h1, h2,
        Bind.bind, Pure.pure]

/-- In-memory backend whose reads pass through a fault filter f (writes
land in the map unmodified).  With f the identity this is memAdapter; a
non-identity f models a backend that silently corrupts or truncates stored
values on read, the situation the atomic enhancer's verification step
exists to catch (compare brokenAdapter in the enhancer test suite). -/
def faultyMem (f : String → Option String → Option String) : TAdapter Store where
  getItem _ k := fun s => Except.ok (f k (s k), s)
  setItem _ k v := fun s => Except.ok ((), s.set k v)
  removeItem _ k := fun s => Except.ok ((), s.del k)
  fire _ _ := pure ()

/-- Layout of the backend after a successful atomic setItem: the committed
value, the cleared temporary key, and the conditional backup. -/
theorem atomic_set_layout_aux (now : Nat) (k v : String) (s : Store) :
    ∃ s', (withAtomic memAdapter).setItem now k v s = Except.ok ((), s') ∧
      s' k = some v ∧
      s' (k ++ ".tmp") = none ∧
      (∀ p, s k = some p → p ≠ "" → s' (k ++ ".bak") = some p) ∧
      ((s k = none ∨ s k = some "") → s' (k ++ ".bak") = s (k ++ ".bak")) := by
  refine ⟨_, atomic_mem_set_eq now k v s, ?_, ?_, ?_, ?_⟩
  · rw [Store.del_other _ _ _ (Ne.symm (tmp_ne_key k))]
    exact Store.set_self _ _ _
  · exact Store.del_self _ _
  · intro p hp hpne
    rw [Store.del_other _ _ _ (bak_ne_tmp k),
      Store.set_other _ _ _ _ (bak_ne_key k),
      Store.set_other _ _ _ _ (bak_ne_tmp k)]
    rw [hp, truthy_some p hpne]
    simp [Store.set_self, hp]
  · intro hcur
    rw [Store.del_other _ _ _ (bak_ne_tmp k),
      Store.set_other _ _ _ _ (bak_ne_key k),
      Store.set_other _ _ _ _ (bak_ne_tmp k)]
    rcases hcur with h | h <;> rw [h] <;> simp [truthy]

/-- C2 (amended): if an atomic setItem(k, v) completes successfully, then
on the underlying backend k holds v, k.tmp is absent, k.bak holds the
value k held immediately before this write whenever that prior value
existed and was nonempty, and a write over an absent or empty prior value
leaves k.bak untouched. -/
theorem atomic_set_backend_layout (now : Nat) (k v : String) (s s' : Store)
    (h : (withAtomic memAdapter).setItem now k v s = Except.ok ((), s')) :
    s' k = some v ∧
    s' (k ++ ".tmp") = none ∧
    (∀ p, s k = some p → p ≠ "" → s' (k ++ ".bak") = some p) ∧
    ((s k = none ∨ s k = some "") → s' (k ++ ".bak") = s (k ++ ".bak")) := by
  obtain ⟨s₀, heq, h1, h2, h3, h4⟩ := atomic_set_layout_aux now k v s
  rw [heq] at h
  have hs : s₀ = s' := by
    have := Except.ok.inj h
    exact congrArg Prod.snd this
  rw [← hs]
  exact ⟨h1, h2, h3, h4⟩

/-- Witness for C2's amended theorem: a concrete successful write over a
nonempty prior value, with the success hypothesis discharged and the
resulting layout read off the final state. -/
theorem atomic_set_backend_layout_witness :
    ∃ s', (withAtomic memAdapter).setItem 0 "k" "v2" (Store.empty.set "k" "v1") =
        Except.ok ((), s') ∧
      s' "k" = some "v2" ∧
      s' ("k" ++ ".tmp") = none ∧
      s' ("k" ++ ".bak") = some "v1" := by
  obtain ⟨s', heq, -, -, -, -⟩ :=
    atomic_set_layout_aux 0 "k" "v2" (Store.empty.set "k" "v1")
  obtain ⟨h1, h2, h3, -⟩ :=
    atomic_set_backend_layout 0 "k" "v2" (Store.empty.set "k" "v1") s' heq
  exact ⟨s', heq, h1, h2, h3 "v1" (Store.set_self _ _ _) (by decide)⟩

/-- C2 counterexample: three successful atomic writes of "a", "", "b" to
key "key" from an empty backend; immediately before the third write the
key held the committed value "", yet after the third write completes
successfully key.bak holds "a", not the immediately-prior committed value
"". -/
theorem atomic_set_backend_layout_cex :
    ∃ s1 s2 s3,
      (withAtomic memAdapter).setItem 0 "key" "a" Store.empty =
        Except.ok ((), s1) ∧
      (withAtomic memAdapter).setItem 0 "key" "" s1 = Except.ok ((), s2) ∧
      (withAtomic memAdapter).setItem 0 "key" "b" s2 = Except.ok ((), s3) ∧
      s2 "key" = some "" ∧
      s3 ("key" ++ ".bak") = some "a" ∧
      some "a" ≠ some "" := by
  refine ⟨_, _, _, atomic_mem_set_eq 0 "key" "a" Store.empty,
    atomic_mem_set_eq 0 "key" "" _, atomic_mem_set_eq 0 "key" "b" _,
    rfl, rfl, by decide⟩

/-- C3: if the read-back of key.tmp during an atomic setItem does not
compare equal to the value being written, setItem throws the
write-verification error and the primary key still holds exactly its prior
value. -/
theorem atomic_write_verification (f : String → Option String → Option String)
    (now : Nat) (k v : String) (s : Store)
    (hf : f (k ++ ".tmp") (some v) ≠ some v) :
    ∃ s', (withAtomic (faultyMem f)).setItem now k v s =
        Except.error ("[Atomic] Write verification failed: " ++ k, s') ∧
      s' k = s k := by
  have hne : ∀ w, f (k ++ ".tmp") (some v) = some w → w ≠ v := by
    intro w hw hwv
    exact hf (by rw [hw, hwv])
  by_cases h : truthy (f k (s k))
  · simp only [withAtomic, faultyMem, M.bind_apply, M.pure_apply, h,
      Bind.bind, Pure.pure, if_true, Store.set_self]
    cases hw : f (k ++ ".tmp") (some v) with
    | none =>
      exact ⟨_, rfl, by
        rw [Store.set_other _ _ _ _ (tmp_ne_key k).symm,
          Store.set_other _ _ _ _ (bak_ne_key k).symm]⟩
    | some w =>
      simp only [hne w hw, if_false, throwM]
      exact ⟨_, rfl, by
        rw [Store.set_other _ _ _ _ (tmp_ne_key k).symm,
          Store.set_other _ _ _ _ (bak_ne_key k).symm]⟩
  · simp only [withAtomic, faultyMem, M.bind_apply, M.pure_apply, h,
      Bind.bind, Pure.pure, if_false, Store.set_self, Bool.false_eq_true]
    cases hw : f (k ++ ".tmp") (some v) with
    | none =>
      exact ⟨_, rfl, by rw [Store.set_other _ _ _ _ (tmp_ne_key k).symm]⟩
    | some w =>
      simp only [hne w hw, if_false, throwM]
      exact ⟨_, rfl, by rw [Store.set_other _ _ _ _ (tmp_ne_key k).symm]⟩

/-- Witness for C3 at concrete inputs: a backend that corrupts every read
of a .tmp key makes atomic setItem throw and leave the primary key alone. -/
theorem atomic_write_verification_witness :
    ∃ s', (withAtomic (faultyMem (fun key r =>
        if key = "k" ++ ".tmp" then some "corrupted" else r))).setItem 0 "k" "value"
        (Store.empty.set "k" "old") =
      Except.error ("[Atomic] Write verification failed: " ++ "k", s') ∧
      s' "k" = some "old" := by
  obtain ⟨s', h1, h2⟩ :=
    atomic_write_verification
      (fun key r => if key = "k" ++ ".tmp" then some "corrupted" else r)
      0 "k" "value" (Store.empty.set "k" "old") (by decide)
  exact ⟨s', h1, by rw [h2]; exact Store.set_self _ _ _⟩

/-- C4 (amended): two successful atomic writes of a nonempty v1 and then
any v2 to key k; deleting the primary key on the backend and reading
returns v1 from the backup and durably rewrites it to the primary key, and
a second read returns v1 again. -/
theorem atomic_backup_restore (now : Nat) (k v1 v2 : String) (s : Store)
    (h1 : v1 ≠ "") :
    ∃ s1 s2 s4,
      (withAtomic memAdapter).setItem now k v1 s = Except.ok ((), s1) ∧
      (withAtomic memAdapter).setItem now k v2 s1 = Except.ok ((), s2) ∧
      (withAtomic memAdapter).getItem now k (s2.del k) =
        Except.ok (some v1, s4) ∧
      s4 k = some v1 ∧
      (withAtomic memAdapter).getItem now k s4 = Except.ok (some v1, s4) := by
  obtain ⟨s1, hs1, hk1, -, -, -⟩ := atomic_set_layout_aux now k v1 s
  obtain ⟨s2, hs2, hk2, -, hbak, -⟩ := atomic_set_layout_aux now k v2 s1
  have hbak2 : s2 (k ++ ".bak") = some v1 := hbak v1 hk1 h1
  have hdk : (s2.del k) k = none := Store.del_self _ _
  have hdbak : (s2.del k) (k ++ ".bak") = some v1 := by
    rw [Store.del_other _ _ _ (bak_ne_key k)]; exact hbak2
  refine ⟨s1, s2, (s2.del k).set k v1, hs1, hs2, ?_, Store.set_self _ _ _, ?_⟩
  · rw [atomic_mem_get_eq, hdk, hdbak, truthy_none, truthy_some v1 h1]
    simp
  · rw [atomic_mem_get_eq, Store.set_self, truthy_some v1 h1]
    simp

/-- Witness for C4's amended theorem at concrete inputs. -/
theorem atomic_backup_restore_witness :
    ∃ s1 s2 s4,
      (withAtomic memAdapter).setItem 0 "key" "v1" Store.empty =
        Except.ok ((), s1) ∧
      (withAtomic memAdapter).setItem 0 "key" "v2" s1 = Except.ok ((), s2) ∧
      (withAtomic memAdapter).getItem 0 "key" (s2.del "key") =
        Except.ok (some "v1", s4) ∧
      s4 "key" = some "v1" ∧
      (withAtomic memAdapter).getItem 0 "key" s4 =
        Except.ok (some "v1", s4) :=
  atomic_backup_restore 0 "key" "v1" "v2" Store.empty (by decide)

/-- C4 counterexample: with v1 the empty string, the two writes succeed but
after deleting the primary key getItem returns null, not v1 (the empty
string is falsy, so the second write created no backup). -/
theorem atomic_backup_restore_cex :
    getRes ((withAtomic memAdapter).getItem 0 "key")
        ((execM ((withAtomic memAdapter).setItem 0 "key" "b")
          (execM ((withAtomic memAdapter).setItem 0 "key" "") Store.empty)).del
          "key") = some none ∧
    some (none : Option String) ≠ some (some "") := by
  refine ⟨rfl, by decide⟩

/-- UTF-8 encoding of one code point, as the crc-32 package performs it
internally when checksumming a JS string. -/
def utf8Bytes (c : Char) : List Nat :=
  let n := c.toNat
  if n < 128 then [n]
  else if n < 2048 then [192 + n / 64, 128 + n % 64]
  else if n < 65536 then [224 + n / 4096, 128 + n / 64 % 64, 128 + n % 64]
  else [240 + n / 262144, 128 + n / 4096 % 64, 128 + n / 64 % 64, 128 + n % 64]

/-- UTF-8 byte sequence of a string. -/
def utf8 (s : String) : List Nat := s.data.flatMap utf8Bytes

/-- One bit step of the reflected CRC-32 (polynomial 0xEDB88320). -/
def crc32Step (c : Nat) : Nat :=
  if c % 2 = 1 then (c / 2) ^^^ 0xEDB88320 else c / 2

/-- Fold one byte into the CRC accumulator. -/
def crc32Byte (c b : Nat) : Nat := crc32Step^[8] (c ^^^ b % 256)

/-- Unsigned CRC-32 of a string's UTF-8 bytes. -/
def crc32Nat (s : String) : Nat :=
  ((utf8 s).foldl crc32Byte 0xFFFFFFFF) ^^^ 0xFFFFFFFF

/-- Reinterpret a 32-bit unsigned value as a signed JS int32. -/
def toSigned32 (n : Nat) : Int :=
  if n < 2147483648 then (n : Int) else (n : Int) - 4294967296

/-- crc32.str from the crc-32 package: a signed 32-bit CRC of the string. -/
def crc32str (s : String) : Int := toSigned32 (crc32Nat s)

/-- Decimal digit character. -/
def digitChar (n : Nat) : Char := Char.ofNat (48 + n)

/-- Decimal digits of a natural number, most significant first (the JS
number-to-string conversion used by JSON.stringify for integers). -/
def natDigits (n : Nat) : List Char :=
  if _h : n < 10 then [digitChar n]
  else natDigits (n / 10) ++ [digitChar (n % 10)]
termination_by n
decreasing_by exact Nat.div_lt_self (by omega) (by omega)

/-- Decimal rendering of a signed integer. -/
def intChars (i : Int) : List Char :=
  if i < 0 then '-' :: natDigits i.natAbs else natDigits i.toNat

/-- Decimal digit test. -/
def isDigitC (c : Char) : Bool := 48 ≤ c.toNat && c.toNat ≤ 57

/-- Split a leading run of decimal digits. -/
def takeDigits : List Char → List Char × List Char
  | [] => ([], [])
  | c :: rest =>
    if isDigitC c then
      let p := takeDigits rest
      (c :: p.1, p.2)
    else ([], c :: rest)

/-- Value of a digit run. -/
def digitsVal (ds : List Char) : Nat :=
  ds.foldl (fun a c => a * 10 + (c.toNat - 48)) 0

/-- Parse a nonempty digit run. -/
def parseNatChars (l : List Char) : Option (Nat × List Char) :=
  match takeDigits l with
  | ([], _) => none
  | (ds, r) => some (digitsVal ds, r)

/-- Parse an optionally-negated decimal integer. -/
def parseIntChars (l : List Char) : Option (Int × List Char) :=
  match l with
  | [] => none
  | c :: rest =>
    if c = '-' then (parseNatChars rest).map (fun p => (-(p.1 : Int), p.2))
    else (parseNatChars (c :: rest)).map (fun p => ((p.1 : Int), p.2))

/-- Consume an expected literal character sequence. -/
def dropLit : List Char → List Char → Option (List Char)
  | [], l => some l
  | _ :: _, [] => none
  | p :: ps, c :: cs => if c = p then dropLit ps cs else none

/-- Lower-case hex digit. -/
def hexChar (n : Nat) : Char :=
  if n < 10 then digitChar n else Char.ofNat (87 + n)

/-- JSON.stringify escaping of one character inside a string literal. -/
def escChar (c : Char) : List Char :=
  if c = '"' then ['\\', '"']
  else if c = '\\' then ['\\', '\\']
  else if c = Char.ofNat 8 then ['\\', 'b']
  else if c = Char.ofNat 9 then ['\\', 't']
  else if c = Char.ofNat 10 then ['\\', 'n']
  else if c = Char.ofNat 12 then ['\\', 'f']
  else if c = Char.ofNat 13 then ['\\', 'r']
  else if c.toNat < 32 then
    ['\\', 'u', '0', '0', hexChar (c.toNat / 16), hexChar (c.toNat % 16)]
  else [c]

/-- JSON.stringify escaping of a whole string (without the quotes). -/
def escape (s : String) : List Char := s.data.flatMap escChar

/-- Hex digit value. -/
def hexVal (c : Char) : Option Nat :=
  if 48 ≤ c.toNat ∧ c.toNat ≤ 57 then some (c.toNat - 48)
  else if 97 ≤ c.toNat ∧ c.toNat ≤ 102 then some (c.toNat - 87)
  else if 65 ≤ c.toNat ∧ c.toNat ≤ 70 then some (c.toNat - 55)
  else none

/-- Parse the body of a JSON string literal (after the opening quote),
returning the decoded string and the remainder after the closing quote. -/
def parseStringBody : List Char → List Char → Option (String × List Char)
  | [], _ => none
  | c :: rest, acc =>
    if c = '"' then some (⟨acc.reverse⟩, rest)
    else if c = '\\' then
      match rest with
      | [] => none
      | e :: rest' =>
        if e = '"' then parseStringBody rest' ('"' :: acc)
        else if e = '\\' then parseStringBody rest' ('\\' :: acc)
        else if e = 'b' then parseStringBody rest' (Char.ofNat 8 :: acc)
        else if e = 't' then parseStringBody rest' (Char.ofNat 9 :: acc)
        else if e = 'n' then parseStringBody rest' (Char.ofNat 10 :: acc)
        else if e = 'f' then parseStringBody rest' (Char.ofNat 12 :: acc)
        else if e = 'r' then parseStringBody rest' (Char.ofNat 13 :: acc)
        else if e = 'u' then
          match rest' with
          | h1 :: h2 :: h3 :: h4 :: rest2 =>
            match hexVal h1, hexVal h2, hexVal h3, hexVal h4 with
            | some a, some b, some c2, some d2 =>
              parseStringBody rest2
                (Char.ofNat (((a * 16 + b) * 16 + c2) * 16 + d2) :: acc)
            | _, _, _, _ => none
          | _ => none
        else none
    else parseStringBody rest (c :: acc)

/-- Serialized ChecksumEnvelope, the exact byte sequence produced by
JSON.stringify on the object literal written by withChecksum.setItem:
a d field holding the data string, a c field holding the signed CRC-32,
and a t field holding the timestamp. -/
def encodeEnvelope (d : String) (c : Int) (t : Nat) : String :=
  ⟨"\x7b\"d\":\"".data ++ escape d ++ "\",\"c\":".data ++ intChars c ++
    ",\"t\":".data ++ natDigits t ++ ['\x7d']⟩

/-- Model of JSON.parse followed by destructuring of the d and c fields
(and presence of t), restricted to the canonical shape that
withChecksum.setItem writes; any other input is a parse failure, as is any
input on which the destructured d would not be a string. -/
def decodeEnvelope (raw : String) : Option (String × Int × Nat) :=
  match dropLit "\x7b\"d\":\"".data raw.data with
  | none => none
  | some r1 =>
    match parseStringBody r1 [] with
    | none => none
    | some (d, r2) =>
      match dropLit ",\"c\":".data r2 with
      | none => none
      | some r3 =>
        match parseIntChars r3 with
        | none => none
        | some (c, r4) =>
          match dropLit ",\"t\":".data r4 with
          | none => none
          | some r5 =>
            match parseNatChars r5 with
            | none => none
            | some (t, r6) =>
              match r6 with
              | ['\x7d'] => some (d, c, t)
              | _ => none

theorem dropLit_append (p r : List Char) : dropLit p (p ++ r) = some r := by
  induction p with
  | nil => rfl
  | cons a ps ih => simp [dropLit, ih]

theorem hexVal_hexChar : ∀ n < 16, hexVal (hexChar n) = some n := by decide

theorem psb_quote (rest acc : List Char) :
    parseStringBody ('"' :: rest) acc = some (⟨acc.reverse⟩, rest) := by
  rw [parseStringBody.eq_def]
  simp

theorem psb_bs_quote (l acc : List Char) :
    parseStringBody ('\\' :: '"' :: l) acc = parseStringBody l ('"' :: acc) := by
  rw [parseStringBody.eq_def]
  simp

theorem psb_bs_bs (l acc : List Char) :
    parseStringBody ('\\' :: '\\' :: l) acc =
      parseStringBody l ('\\' :: acc) := by
  rw [parseStringBody.eq_def]
  simp

theorem psb_b (l acc : List Char) :
    parseStringBody ('\\' :: 'b' :: l) acc =
      parseStringBody l (Char.ofNat 8 :: acc) := by
  rw [parseStringBody.eq_def]
  simp

theorem psb_t (l acc : List Char) :
    parseStringBody ('\\' :: 't' :: l) acc =
      parseStringBody l (Char.ofNat 9 :: acc) := by
  rw [parseStringBody.eq_def]
  simp

theorem psb_n (l acc : List Char) :
    parseStringBody ('\\' :: 'n' :: l) acc =
      parseStringBody l (Char.ofNat 10 :: acc) := by
  rw [parseStringBody.eq_def]
  simp

theorem psb_f (l acc : List Char) :
    parseStringBody ('\\' :: 'f' :: l) acc =
      parseStringBody l (Char.ofNat 12 :: acc) := by
  rw [parseStringBody.eq_def]
  simp

theorem psb_r (l acc : List Char) :
    parseStringBody ('\\' :: 'r' :: l) acc =
      parseStringBody l (Char.ofNat 13 :: acc) := by
  rw [parseStringBody.eq_def]
  simp

theorem psb_u (h1 h2 h3 h4 : Char) (l acc : List Char) :
    parseStringBody ('\\' :: 'u' :: h1 :: h2 :: h3 :: h4 :: l) acc =
      (match hexVal h1, hexVal h2, hexVal h3, hexVal h4 with
        | some a, some b, some c2, some d2 =>
          parseStringBody l
            (Char.ofNat (((a * 16 + b) * 16 + c2) * 16 + d2) :: acc)
        | _, _, _, _ => none) := by
  rw [parseStringBody.eq_def]
  simp

theorem psb_lit (c : Char) (l acc : List Char) (h1 : c ≠ '"') (h2 : c ≠ '\\') :
    parseStringBody (c :: l) acc = parseStringBody l (c :: acc) := by
  rw [parseStringBody.eq_def]
  simp [h1, h2]

theorem parseStringBody_escape (d : List Char) (acc rest : List Char) :
    parseStringBody (d.flatMap escChar ++ '"' :: rest) acc =
      some (⟨acc.reverse ++ d⟩, rest) := by
  induction d generalizing acc with
  | nil =>
    rw [List.flatMap_nil, List.nil_append, psb_quote]
    simp
  | cons c d ih =>
    rw [List.flatMap_cons, List.append_assoc]
    rw [escChar]
    split_ifs with h1 h2 h3 h4 h5 h6 h7 h8
    · subst h1
      simp only [List.cons_append, List.nil_append, psb_bs_quote]
      rw [ih]
      simp
    · subst h2
      simp only [List.cons_append, List.nil_append, psb_bs_bs]
      rw [ih]
      simp
    · subst h3
      simp only [List.cons_append, List.nil_append, psb_b]
      rw [ih]
      simp
    · subst h4
      simp only [List.cons_append, List.nil_append, psb_t]
      rw [ih]
      simp
    · subst h5
      simp only [List.cons_append, List.nil_append, psb_n]
      rw [ih]
      simp
    · subst h6
      simp only [List.cons_append, List.nil_append, psb_f]
      rw [ih]
      simp
    · subst h7
      simp only [List.cons_append, List.nil_append, psb_r]
      rw [ih]
      simp
    · have hv0 : hexVal '0' = some 0 := by decide
      have hv1 := hexVal_hexChar (c.toNat / 16) (by omega)
      have hv2 := hexVal_hexChar (c.toNat % 16) (by omega)
      have hc : ((0 * 16 + 0) * 16 + c.toNat / 16) * 16 + c.toNat % 16 =
          c.toNat := by omega
      simp only [List.cons_append, List.nil_append, psb_u, hv0, hv1, hv2, hc,
        Char.ofNat_toNat]
      rw [ih]
      simp
    · simp only [List.cons_append, List.nil_append, psb_lit c _ _ h1 h2]
      rw [ih]
      simp

theorem digit_toNat : ∀ m < 10, (digitChar m).toNat = 48 + m := by decide

theorem isDigit_digitChar : ∀ m < 10, isDigitC (digitChar m) = true := by decide

theorem natDigits_ne_nil (n : Nat) : natDigits n ≠ [] := by
  rw [natDigits]
  split <;> simp

theorem mem_natDigits_isDigit (n : Nat) :
    ∀ c ∈ natDigits n, isDigitC c = true := by
  induction n using Nat.strong_induction_on with
  | _ n ih =>
    rw [natDigits]
    split
    · intro c hc
      rw [List.mem_singleton] at hc
      subst hc
      exact isDigit_digitChar n (by omega)
    · intro c hc
      rw [List.mem_append] at hc
      rcases hc with hc | hc
      · exact ih (n / 10) (Nat.div_lt_self (by omega) (by omega)) c hc
      · rw [List.mem_singleton] at hc
        subst hc
        exact isDigit_digitChar (n % 10) (Nat.mod_lt _ (by omega))

theorem digitsVal_append_digit (ds : List Char) (d : Char) :
    digitsVal (ds ++ [d]) = digitsVal ds * 10 + (d.toNat - 48) := by
  simp [digitsVal, List.foldl_append]

theorem digitsVal_natDigits (n : Nat) : digitsVal (natDigits n) = n := by
  induction n using Nat.strong_induction_on with
  | _ n ih =>
    rw [natDigits]
    split
    · next h =>
      simp [digitsVal, digit_toNat n h]
    · next h =>
      rw [digitsVal_append_digit, ih (n / 10) (Nat.div_lt_self (by omega) (by omega)),
        digit_toNat (n % 10) (Nat.mod_lt _ (by omega))]
      omega

/-- Head-is-a-digit test, used to delimit number parsing. -/
def isDigitHead : List Char → Bool
  | [] => false
  | c :: _ => isDigitC c

theorem takeDigits_all (ds rest : List Char)
    (h1 : ∀ c ∈ ds, isDigitC c = true) (h2 : isDigitHead rest = false) :
    takeDigits (ds ++ rest) = (ds, rest) := by
  induction ds with
  | nil =>
    cases rest with
    | nil => rfl
    | cons c r =>
      simp only [isDigitHead] at h2
      simp [takeDigits, h2]
  | cons a ds ih =>
    have ha : isDigitC a = true := h1 a (List.mem_cons_self a ds)
    have hds : ∀ c ∈ ds, isDigitC c = true :=
      fun c hc => h1 c (List.mem_cons_of_mem a hc)
    simp [takeDigits, ha, ih hds]

theorem parseNatChars_natDigits (n : Nat) (rest : List Char)
    (h2 : isDigitHead rest = false) :
    parseNatChars (natDigits n ++ rest) = some (n, rest) := by
  unfold parseNatChars
  rw [takeDigits_all (natDigits n) rest (mem_natDigits_isDigit n) h2]
  cases hnd : natDigits n with
  | nil => exact absurd hnd (natDigits_ne_nil n)
  | cons a l =>
    have : digitsVal (a :: l) = n := hnd ▸ digitsVal_natDigits n
    simp [this]

theorem parseIntChars_neg (l : List Char) :
    parseIntChars ('-' :: l) =
      (parseNatChars l).map (fun p => (-(p.1 : Int), p.2)) := by
  simp [parseIntChars]

theorem parseIntChars_cons (c : Char) (l : List Char) (h : c ≠ '-') :
    parseIntChars (c :: l) =
      (parseNatChars (c :: l)).map (fun p => ((p.1 : Int), p.2)) := by
  simp [parseIntChars, h]

theorem parseIntChars_intChars (i : Int) (rest : List Char)
    (h2 : isDigitHead rest = false) :
    parseIntChars (intChars i ++ rest) = some (i, rest) := by
  unfold intChars
  split
  · next h =>
    rw [List.cons_append, parseIntChars_neg,
      parseNatChars_natDigits i.natAbs rest h2, Option.map_some']
    have hval : -((i.natAbs : Nat) : Int) = i := by omega
    simp only [hval]
  · next h =>
    cases hnd : natDigits i.toNat with
    | nil => exact absurd hnd (natDigits_ne_nil i.toNat)
    | cons a l =>
      have ha : isDigitC a = true := by
        have := mem_natDigits_isDigit i.toNat a
        rw [hnd] at this
        exact this (List.mem_cons_self a l)
      have hane : a ≠ '-' := by
        intro hav
        rw [hav] at ha
        exact absurd ha (by decide)
      have hp : parseNatChars ((a :: l) ++ rest) = some (i.toNat, rest) := by
        rw [← hnd]
        exact parseNatChars_natDigits i.toNat rest h2
      rw [List.cons_append, parseIntChars_cons a _ hane,
        ← List.cons_append, hp, Option.map_some']
      have hval : ((i.toNat : Nat) : Int) = i := by omega
      simp only [hval]

/-- Round trip: decoding a canonical envelope recovers its fields. -/
theorem decode_encode (d : String) (c : Int) (t : Nat) :
    decodeEnvelope (encodeEnvelope d c t) = some (d, c, t) := by
  have e2 : "\",\"c\":".data = '"' :: ",\"c\":".data := rfl
  have e3 : escape d = d.data.flatMap escChar := rfl
  have hd1 : isDigitHead (",\"t\":".data ++ (natDigits t ++ ['\x7d'])) = false := rfl
  have hd2 : isDigitHead ['\x7d'] = false := rfl
  unfold decodeEnvelope
  have h1 : (encodeEnvelope d c t).data =
      "\x7b\"d\":\"".data ++ (d.data.flatMap escChar ++ '"' ::
        (",\"c\":".data ++ (intChars c ++
          (",\"t\":".data ++ (natDigits t ++ ['\x7d']))))) := by
    show ("\x7b\"d\":\"".data ++ escape d ++ "\",\"c\":".data ++ intChars c ++
        ",\"t\":".data ++ natDigits t ++ ['\x7d']) = _
    rw [e3, e2]
    simp [List.append_assoc]
  rw [h1]
  simp only [dropLit_append, parseStringBody_escape, List.reverse_nil,
    List.nil_append, parseIntChars_intChars c _ hd1,
    parseNatChars_natDigits t _ hd2]

/-- The parse helper of withChecksum: an absent or empty raw value yields
null; a raw value that fails to decode as an envelope yields null (the
try/catch swallows the JSON.parse error, and also the error thrown when
the destructured d field is not a string); a decoded envelope whose
recomputed CRC-32 over d differs from the stored c yields null; otherwise
the data field d is returned. -/
def cksumParse (raw : Option String) : Option String :=
  match raw with
  | none => none
  | some r =>
    if r = "" then none
    else
      match decodeEnvelope r with
      | none => none
      | some (d, c, _) => if crc32str d = c then some d else none

/-- Checksum enhancer (withChecksum in storage/enhancers.ts): setItem wraps
the value in a ChecksumEnvelope with its CRC-32 and the current timestamp;
getItem parses and verifies; removeItem delegates. -/
def withChecksum (base : TAdapter σ) : TAdapter σ where
  getItem now key :=
    base.getItem now key >>= fun result => pure (cksumParse result)
  setItem now key value :=
    base.setItem now key (encodeEnvelope value (crc32str value) now)
  removeItem now key := base.removeItem now key
  fire now key := base.fire now key

theorem encodeEnvelope_ne_empty (d : String) (c : Int) (t : Nat) :
    encodeEnvelope d c t ≠ "" := by
  intro h
  have hd := decode_encode d c t
  rw [h] at hd
  have hz : decodeEnvelope "" = none := rfl
  rw [hz] at hd
  exact Option.noConfusion hd

/-- A value stored by the checksum enhancer always parses back to itself. -/
theorem cksumParse_encode (v : String) (t : Nat) :
    cksumParse (some (encodeEnvelope v (crc32str v) t)) = some v := by
  show (if encodeEnvelope v (crc32str v) t = "" then none
    else match decodeEnvelope (encodeEnvelope v (crc32str v) t) with
      | none => none
      | some (d, c, _) => if crc32str d = c then some d else none) = some v
  rw [if_neg (encodeEnvelope_ne_empty v _ t), decode_encode]
  simp

/-- C5: the checksum enhancer's getItem never raises for bad stored data
(it always returns ok over a non-throwing backend); an absent or
undecodable stored value yields null, a decoded envelope with a checksum
mismatch over its data field yields null, and otherwise the data field is
returned. -/
theorem checksum_get_never_throws (now : Nat) (k : String) (s : Store) :
    (withChecksum memAdapter).getItem now k s =
      Except.ok ((match s k with
        | none => none
        | some r =>
          if r = "" then none
          else
            match decodeEnvelope r with
            | none => none
            | some (d, c, _) => if crc32str d = c then some d else none), s) :=
  rfl

/-- Write queue enhancer (withQueue in storage/enhancers.ts): every
operation acquires one global mutex (runExclusive), awaits the base
operation to completion, and releases.  In the sequential semantics of
this embedding acquiring the free mutex is a no-op, so each operation is
exactly the base operation. -/
def withQueue (base : TAdapter σ) : TAdapter σ where
  getItem := base.getItem
  setItem := base.setItem
  removeItem := base.removeItem
  fire := base.fire

/-- State of one per-key lodash debounced writer: the pending invocation
arguments (lastArgs; the key is fixed per writer so only the value is
kept), lastCallTime, lastInvokeTime and the scheduled timer expiry. -/
structure DebWriter where
  lastArgs : Option String
  lastCallTime : Option Nat
  lastInvokeTime : Nat
  timerExp : Option Nat
deriving DecidableEq

/-- A newly constructed lodash debounced function. -/
def freshWriter : DebWriter := ⟨none, none, 0, none⟩

/-- lodash shouldInvoke: invoke when this is the first call, when the wait
has elapsed since the last call, when time went backwards, or (maxing is
always on here, since withDebounce always passes maxWait) when maxWait has
elapsed since the last invocation. -/
def shouldInvoke (wait maxWait : Nat) (w : DebWriter) (now : Nat) : Bool :=
  match w.lastCallTime with
  | none => true
  | some lc => (wait ≤ now - lc) || (now < lc) || (maxWait ≤ now - w.lastInvokeTime)

/-- lodash debounced call at time now with argument v: records the args
and call time; when invoking with no timer pending this is the leading
edge (arm the timer; leading is false so nothing is written), when
invoking with a timer pending the maxing branch re-arms the timer and
invokes immediately; otherwise arm the timer if absent.  Returns the new
writer state and whether the wrapped function runs now. -/
def debCall (wait maxWait now : Nat) (v : String) (w : DebWriter) :
    DebWriter × Bool :=
  let inv := shouldInvoke wait maxWait w now
  let w1 : DebWriter := { w with lastArgs := some v, lastCallTime := some now }
  if inv then
    match w1.timerExp with
    | none => ({ w1 with lastInvokeTime := now, timerExp := some (now + wait) }, false)
    | some _ =>
      ({ w1 with
          lastArgs := none,
          lastInvokeTime := now,
          timerExp := some (now + wait) }, true)
  else
    match w1.timerExp with
    | none => ({ w1 with timerExp := some (now + wait) }, false)
    | some _ => (w1, false)

/-- lodash timerExpired at time now: on the trailing edge consume lastArgs
(the value to physically write, if any); otherwise re-arm the timer for
the remaining wait. -/
def debTimer (wait maxWait now : Nat) (w : DebWriter) :
    DebWriter × Option String :=
  if shouldInvoke wait maxWait w now then
    match w.lastArgs with
    | some v =>
      ({ w with lastArgs := none, lastInvokeTime := now, timerExp := none }, some v)
    | none => ({ w with lastArgs := none, timerExp := none }, none)
  else
    let lc := w.lastCallTime.getD 0
    ({ w with timerExp := some (now +
        min (wait - (now - lc)) (maxWait - (now - w.lastInvokeTime))) }, none)

/-- Debounce enhancer closure state around an inner backend state: the
pendingWrites map and the per-key writers map of withDebounce.  The fields
are present in every composed state so that the enhancer pipeline is
type-uniform; enhancers other than debounce neither read nor write them. -/
structure DebState (σ : Type) where
  inner : σ
  pend : String → Option String
  writers : String → Option DebWriter

/-- Lift an adapter to act on the inner component of a DebState. -/
def liftD (base : TAdapter σ) : TAdapter (DebState σ) where
  getItem now k := fun s =>
    match base.getItem now k s.inner with
    | Except.error (e, s') => Except.error (e, { s with inner := s' })
    | Except.ok (r, s') => Except.ok (r, { s with inner := s' })
  setItem now k v := fun s =>
    match base.setItem now k v s.inner with
    | Except.error (e, s') => Except.error (e, { s with inner := s' })
    | Except.ok (r, s') => Except.ok (r, { s with inner := s' })
  removeItem now k := fun s =>
    match base.removeItem now k s.inner with
    | Except.error (e, s') => Except.error (e, { s with inner := s' })
    | Except.ok (r, s') => Except.ok (r, { s with inner := s' })
  fire now k := fun s =>
    match base.fire now k s.inner with
    | Except.error (e, s') => Except.error (e, { s with inner := s' })
    | Except.ok (r, s') => Except.ok (r, { s with inner := s' })

/-- Debounce enhancer (withDebounce in storage/enhancers.ts) with options
wait and maxWait (source defaults: wait 300, maxWait = 3 * wait): setItem
records the pending value and calls the per-key debounced writer, whose
body performs base.setItem and deletes the pending entry when it actually
invokes; getItem always reads through; removeItem cancels the writer,
deletes the pending value and removes through; fire delivers an expired
timer callback for the key. -/
def withDebounce (wait maxWait : Nat) (base : TAdapter (DebState σ)) :
    TAdapter (DebState σ) where
  getItem now k := base.getItem now k
  setItem now k v := fun s =>
    let w := (s.writers k).getD freshWriter
    let p := debCall wait maxWait now v w
    let s1 : DebState σ := { s with
      pend := fun k' => if k' = k then some v else s.pend k',
      writers := fun k' => if k' = k then some p.1 else s.writers k' }
    if p.2 then
      match base.setItem now k v s1 with
      | Except.error e => Except.error e
      | Except.ok (_, s2) =>
        Except.ok ((),
          { s2 with pend := fun k' => if k' = k then none else s2.pend k' })
    else
      Except.ok ((), s1)
  removeItem now k := fun s =>
    let s1 : DebState σ := { s with
      pend := fun k' => if k' = k then none else s.pend k',
      writers := fun k' => if k' = k then none else s.writers k' }
    base.removeItem now k s1
  fire now k := fun s =>
    match s.writers k with
    | none => Except.ok ((), s)
    | some w =>
      match w.timerExp with
      | none => Except.ok ((), s)
      | some e =>
        if e ≤ now then
          let p := debTimer wait maxWait now w
          let s1 : DebState σ := { s with
            writers := fun k' => if k' = k then some p.1 else s.writers k' }
          match p.2 with
          | none => Except.ok ((), s1)
          | some v =>
            match base.setItem now k v s1 with
            | Except.error er => Except.error er
            | Except.ok (_, s2) =>
              Except.ok ((),
                { s2 with pend := fun k' => if k' = k then none else s2.pend k' })
        else Except.ok ((), s)

/-- lodash flow over storage enhancers: apply left to right. -/
def flowE (fs : List (TAdapter σ → TAdapter σ)) (base : TAdapter σ) :
    TAdapter σ :=
  fs.foldl (fun acc f => f acc) base

/-- createSafeStorage (storage/enhancers.ts): build the enhancer list in
source order (queue, then checksum, then atomic, then debounce, each when
enabled) and apply flow to the backend.  Source defaults are queue false,
checksum true, atomic true, debounce off; a boolean debounce option
normalizes to wait 300 and maxWait 3 * wait, here passed as the
already-normalized pair. -/
def createSafeStorage (q c a : Bool) (deb : Option (Nat × Nat))
    (base : TAdapter (DebState σ)) : TAdapter (DebState σ) :=
  flowE ((if q then [withQueue] else []) ++
    (if c then [withChecksum] else []) ++
    (if a then [withAtomic] else []) ++
    (match deb with
      | some p => [withDebounce p.1 p.2]
      | none => [])) base

theorem createSafeStorage_eq (q c a : Bool) (deb : Option (Nat × Nat))
    (base : TAdapter (DebState σ)) :
    createSafeStorage q c a deb base =
      (match deb with
        | some p => withDebounce p.1 p.2
        | none => id)
        ((if a then withAtomic else id)
          ((if c then withChecksum else id)
            ((if q then withQueue else id) base))) := by
  cases q <;> cases c <;> cases a <;> cases deb <;> rfl

/-- C6: createSafeStorage composes exactly the enabled enhancers in the
fixed inside-to-outside order Write Queue, Checksum, Atomic, Debounce
relative to the backend; with every enhancer disabled it returns the
backend itself, so getItem, setItem and removeItem are the backend's own
operations. -/
theorem createSafeStorage_order (q c a : Bool) (deb : Option (Nat × Nat))
    (base : TAdapter (DebState σ)) :
    (createSafeStorage q c a deb base =
      (match deb with
        | some p => withDebounce p.1 p.2
        | none => id)
        ((if a then withAtomic else id)
          ((if c then withChecksum else id)
            ((if q then withQueue else id) base)))) ∧
    createSafeStorage false false false none base = base :=
  ⟨createSafeStorage_eq q c a deb base, rfl⟩

/-- An adapter behaves like a per-key store under a view function: getItem
returns the viewed value without modifying state or throwing, setItem
succeeds and sets exactly its key in the view, and removeItem succeeds and
clears exactly its key in the view. -/
structure StoreLike (A : TAdapter σ) (view : σ → String → Option String) :
    Prop where
  get_eq : ∀ now k s, A.getItem now k s = Except.ok (view s k, s)
  set_eq : ∀ now k v s, ∃ s', A.setItem now k v s = Except.ok ((), s') ∧
    view s' k = some v ∧ ∀ k', k' ≠ k → view s' k' = view s k'
  rem_eq : ∀ now k s, ∃ s', A.removeItem now k s = Except.ok ((), s') ∧
    view s' k = none ∧ ∀ k', k' ≠ k → view s' k' = view s k'

theorem storelike_mem : StoreLike memAdapter (fun s k => s k) where
  get_eq _ _ _ := rfl
  set_eq _ k v s :=
    ⟨s.set k v, rfl, Store.set_self s k v, fun k' h => Store.set_other s k v k' h⟩
  rem_eq _ k s :=
    ⟨s.del k, rfl, Store.del_self s k, fun k' h => Store.del_other s k k' h⟩

theorem storelike_liftD {A : TAdapter σ} {view : σ → String → Option String}
    (h : StoreLike A view) :
    StoreLike (liftD A) (fun s k => view s.inner k) where
  get_eq now k s := by
    show (match A.getItem now k s.inner with
      | Except.error (e, s') => Except.error (e, { s with inner := s' })
      | Except.ok (r, s') => Except.ok (r, { s with inner := s' })) = _
    rw [h.get_eq]
  set_eq now k v s := by
    obtain ⟨s', hset, hk, hother⟩ := h.set_eq now k v s.inner
    refine ⟨{ s with inner := s' }, ?_, hk, fun k' hne => hother k' hne⟩
    show (match A.setItem now k v s.inner with
      | Except.error (e, s') => Except.error (e, { s with inner := s' })
      | Except.ok (r, s') => Except.ok (r, { s with inner := s' })) = _
    rw [hset]
  rem_eq now k s := by
    obtain ⟨s', hrem, hk, hother⟩ := h.rem_eq now k s.inner
    refine ⟨{ s with inner := s' }, ?_, hk, fun k' hne => hother k' hne⟩
    show (match A.removeItem now k s.inner with
      | Except.error (e, s') => Except.error (e, { s with inner := s' })
      | Except.ok (r, s') => Except.ok (r, { s with inner := s' })) = _
    rw [hrem]

theorem storelike_queue {A : TAdapter σ} {view : σ → String → Option String}
    (h : StoreLike A view) : StoreLike (withQueue A) view :=
  h

theorem storelike_cksum {A : TAdapter σ} {view : σ → String → Option String}
    (h : StoreLike A view) :
    StoreLike (withChecksum A) (fun s k => cksumParse (view s k)) where
  get_eq now k s := by
    show (A.getItem now k >>= fun r => pure (cksumParse r)) s = _
    exact M.bind_ok (h.get_eq now k s) rfl
  set_eq now k v s := by
    obtain ⟨s', hset, hk, hother⟩ :=
      h.set_eq now k (encodeEnvelope v (crc32str v) now) s
    refine ⟨s', hset, ?_, fun k' hne => congrArg cksumParse (hother k' hne)⟩
    rw [hk]
    exact cksumParse_encode v now
  rem_eq now k s := by
    obtain ⟨s', hrem, hk, hother⟩ := h.rem_eq now k s
    exact ⟨s', hrem, by rw [hk]; rfl,
      fun k' hne => congrArg cksumParse (hother k' hne)⟩

/-- Round trip through a store-like adapter (no truthiness involved). -/
theorem storelike_roundtrip {A : TAdapter σ}
    {view : σ → String → Option String} (h : StoreLike A view)
    (now now' : Nat) (k v : String) (s : σ) :
    ∃ s', A.setItem now k v s = Except.ok ((), s') ∧
      ∃ s'', A.getItem now' k s' = Except.ok (some v, s'') := by
  obtain ⟨s', hset, hk, -⟩ := h.set_eq now k v s
  exact ⟨s', hset, s', by rw [h.get_eq, hk]⟩

/-- Round trip through the atomic enhancer over a store-like adapter: the
commit protocol lands the value at the primary key, and a nonempty value
is truthy so the read returns it directly. -/
theorem atomic_roundtrip_of_storelike {A : TAdapter σ}
    {view : σ → String → Option String} (h : StoreLike A view)
    (now now' : Nat) (k v : String) (hv : v ≠ "") (s : σ) :
    ∃ s', (withAtomic A).setItem now k v s = Except.ok ((), s') ∧
      ∃ s'', (withAtomic A).getItem now' k s' = Except.ok (some v, s'') := by
  have hset :
      ∀ s₁ : σ, ∃ s', (withAtomic A).setItem now k v s₁ = Except.ok ((), s') ∧
        view s' k = some v := by
    intro s₁
    obtain ⟨s₂, hbak⟩ :
        ∃ s₂, (if truthy (view s₁ k) then
            A.setItem now (k ++ ".bak") ((view s₁ k).getD "")
          else pure ()) s₁ = Except.ok ((), s₂) ∧
          view s₂ k = view s₁ k := by
      by_cases ht : truthy (view s₁ k)
      · obtain ⟨s₂, hs, hk, hother⟩ :=
          h.set_eq now (k ++ ".bak") ((view s₁ k).getD "") s₁
        exact ⟨s₂, by rw [if_pos ht]; exact hs,
          hother k (Ne.symm (bak_ne_key k))⟩
      · exact ⟨s₁, by rw [if_neg ht]; rfl, rfl⟩
    obtain ⟨hb1, hb2⟩ := hbak
    obtain ⟨s₃, htmp, htmpk, htmpo⟩ := h.set_eq now (k ++ ".tmp") v s₂
    obtain ⟨s₄, hcommit, hck, hco⟩ := h.set_eq now k v s₃
    obtain ⟨s₅, hrm, hrmk, hrmo⟩ := h.rem_eq now (k ++ ".tmp") s₄
    refine ⟨s₅, ?_, ?_⟩
    · show ((A.getItem now k >>= fun current =>
        (if truthy current then
          A.setItem now (k ++ ".bak") (current.getD "")
        else pure ()) >>= fun _ =>
        A.setItem now (k ++ ".tmp") v >>= fun _ =>
        A.getItem now (k ++ ".tmp") >>= fun written =>
        match written with
        | some w =>
          if w = v then
            A.setItem now k w >>= fun _ => A.removeItem now (k ++ ".tmp")
          else throwM ("[Atomic] Write verification failed: " ++ k)
        | none => throwM ("[Atomic] Write verification failed: " ++ k)) s₁ =
          Except.ok ((), s₅))
      refine M.bind_ok (h.get_eq now k s₁) ?_
      refine M.bind_ok hb1 ?_
      refine M.bind_ok htmp ?_
      refine M.bind_ok
        (show A.getItem now (k ++ ".tmp") s₃ = Except.ok (some v, s₃) by
          rw [h.get_eq, htmpk]) ?_
      show (if v = v then
          A.setItem now k v >>= fun _ => A.removeItem now (k ++ ".tmp")
        else throwM ("[Atomic] Write verification failed: " ++ k)) s₃ =
          Except.ok ((), s₅)
      rw [if_pos rfl]
      exact M.bind_ok hcommit hrm
    · rw [hrmo k (Ne.symm (tmp_ne_key k)), hck]
  obtain ⟨s', hs', hk'⟩ := hset s
  refine ⟨s', hs', s', ?_⟩
  show (A.getItem now' k >>= fun result =>
    if truthy result then pure result
    else
      A.getItem now' (k ++ ".bak") >>= fun backup =>
      if truthy backup then
        A.setItem now' k (backup.getD "") >>= fun _ => pure backup
      else pure result) s' = Except.ok (some v, s')
  refine M.bind_ok (h.get_eq now' k s') ?_
  show (if truthy (view s' k) then pure (view s' k)
    else
      A.getItem now' (k ++ ".bak") >>= fun backup =>
      if truthy backup then
        A.setItem now' k (backup.getD "") >>= fun _ => pure backup
      else pure (view s' k)) s' = Except.ok (some v, s')
  rw [hk', truthy_some v hv, if_pos rfl]
  exact M.pure_apply (some v) s'

/-- The all-disabled composed state for concrete runs. -/
def initDeb : DebState Store :=
  ⟨Store.empty, fun _ => none, fun _ => none⟩

/-- C1 (amended): with debounce disabled and v nonempty, for every
combination of the queue, checksum and atomic enhancers built by
createSafeStorage over the in-memory backend, setItem(k, v) followed by
getItem(k) returns v, from any reachable state. -/
theorem safe_storage_roundtrip (q c a : Bool) (k v : String) (hv : v ≠ "")
    (now now' : Nat) (s : DebState Store) :
    ∃ s', (createSafeStorage q c a none (liftD memAdapter)).setItem now k v s =
        Except.ok ((), s') ∧
      ∃ s'', (createSafeStorage q c a none (liftD memAdapter)).getItem now' k s' =
        Except.ok (some v, s'') := by
  have hbase : StoreLike (liftD memAdapter) (fun s k => s.inner k) :=
    storelike_liftD storelike_mem
  rw [createSafeStorage_eq]
  cases q <;> cases c <;> cases a <;>
    simp only [if_true, if_false, Bool.false_eq_true, id_eq, ite_true, ite_false]
  · exact storelike_roundtrip hbase now now' k v s
  · exact atomic_roundtrip_of_storelike hbase now now' k v hv s
  · exact storelike_roundtrip (storelike_cksum hbase) now now' k v s
  · exact atomic_roundtrip_of_storelike (storelike_cksum hbase) now now' k v hv s
  · exact storelike_roundtrip (storelike_queue hbase) now now' k v s
  · exact atomic_roundtrip_of_storelike (storelike_queue hbase) now now' k v hv s
  · exact storelike_roundtrip (storelike_cksum (storelike_queue hbase)) now now' k v s
  · exact atomic_roundtrip_of_storelike (storelike_cksum (storelike_queue hbase))
      now now' k v hv s

/-- Witness for C1's amended theorem at the source's default options
(checksum and atomic on, queue and debounce off). -/
theorem safe_storage_roundtrip_witness :
    ∃ s', (createSafeStorage false true true none (liftD memAdapter)).setItem
        0 "k" "v" initDeb = Except.ok ((), s') ∧
      ∃ s'', (createSafeStorage false true true none
          (liftD memAdapter)).getItem 0 "k" s' = Except.ok (some "v", s'') :=
  safe_storage_roundtrip false true true "k" "v" (by decide) 0 0 initDeb

/-- C1 counterexample: with the atomic enhancer enabled (queue, checksum,
debounce off), writing "a" and then the empty string to "key" makes the
following getItem return the stale backup "a", not the empty string just
written; and with atomic and debounce enabled, a getItem immediately after
setItem returns the old backend value (here null), not the value just
written.  Both runs are enhancer combinations of createSafeStorage, so the
claim's universal statement over all combinations fails. -/
theorem safe_storage_roundtrip_cex :
    (getRes ((createSafeStorage false false true none (liftD memAdapter)).getItem
        0 "key")
      (execM ((createSafeStorage false false true none
          (liftD memAdapter)).setItem 0 "key" "")
        (execM ((createSafeStorage false false true none
            (liftD memAdapter)).setItem 0 "key" "a") initDeb)) =
      some (some "a") ∧ some (some "a") ≠ some (some "")) ∧
    (getRes ((createSafeStorage false false true (some (300, 900))
          (liftD memAdapter)).getItem 0 "key")
        (execM ((createSafeStorage false false true (some (300, 900))
            (liftD memAdapter)).setItem 0 "key" "v") initDeb) =
      some none ∧ some (none : Option String) ≠ some (some "v")) :=
  ⟨⟨rfl, by decide⟩, ⟨rfl, by decide⟩⟩

/-- Backend state with a log of physical setItem calls, the write-relevant
part of createTrackedStorageAdapter from the test utilities. -/
def LogStore : Type := Store × List (String × String)

/-- In-memory backend instrumented to record every physical setItem call
(key and value), as createTrackedStorageAdapter records set operations. -/
def logMem : TAdapter LogStore where
  getItem _ k := fun s => Except.ok (s.1 k, s)
  setItem _ k v := fun s => Except.ok ((), (s.1.set k v, s.2 ++ [(k, v)]))
  removeItem _ k := fun s => Except.ok ((), (s.1.del k, s.2))
  fire _ _ := pure ()

/-- The debounce enhancer with wait 300 and the default maxWait 3 * wait
over the logging backend. -/
def debD : TAdapter (DebState LogStore) := withDebounce 300 900 (liftD logMem)

/-- Writer state after one or more calls at time 0 within the first wait
window: pending value, last call at 0, no invocation yet, timer armed for
time 300. -/
def armedW (v : String) : DebWriter := ⟨some v, some 0, 0, some 300⟩

theorem debCall_fresh (v : String) :
    debCall 300 900 0 v freshWriter = (armedW v, false) := rfl

theorem debCall_armed (u v : String) :
    debCall 300 900 0 v (armedW u) = (armedW v, false) := rfl

theorem debTimer_armed (u : String) :
    debTimer 300 900 300 (armedW u) = (⟨none, some 0, 300, none⟩, some u) := rfl

theorem deb_set_fresh (k v : String) (s : DebState LogStore)
    (h : s.writers k = none) :
    debD.setItem 0 k v s = Except.ok ((), { s with
      pend := fun k' => if k' = k then some v else s.pend k',
      writers := fun k' => if k' = k then some (armedW v) else s.writers k' }) := by
  simp [debD, withDebounce, h, debCall_fresh]

theorem deb_set_armed (k u v : String) (s : DebState LogStore)
    (h : s.writers k = some (armedW u)) :
    debD.setItem 0 k v s = Except.ok ((), { s with
      pend := fun k' => if k' = k then some v else s.pend k',
      writers := fun k' => if k' = k then some (armedW v) else s.writers k' }) := by
  simp [debD, withDebounce, h, debCall_armed]

theorem deb_fire_armed (k u : String) (s : DebState LogStore)
    (h : s.writers k = some (armedW u)) :
    debD.fire 300 k s = Except.ok ((), {
      inner := (s.inner.1.set k u, s.inner.2 ++ [(k, u)]),
      pend := fun k' => if k' = k then none else s.pend k',
      writers := fun k' => if k' = k then some ⟨none, some 0, 300, none⟩
        else s.writers k' }) := by
  simp only [debD, withDebounce, h, debTimer_armed]
  simp [liftD, logMem, armedW]

/-- The synchronous burst: fold the debounced setItem over a list of
values, all issued at time 0. -/
def runCalls (k : String) (vs : List String) (s : DebState LogStore) :
    DebState LogStore :=
  vs.foldl (fun st v => execM (debD.setItem 0 k v) st) s

theorem runCalls_armed (k : String) (vs : List String) :
    ∀ (u : String) (s : DebState LogStore), s.writers k = some (armedW u) →
      (runCalls k vs s).inner = s.inner ∧
      (runCalls k vs s).writers k = some (armedW (vs.getLastD u)) := by
  induction vs with
  | nil => intro u s h; exact ⟨rfl, h⟩
  | cons v rest ih =>
    intro u s h
    have hstep := deb_set_armed k u v s h
    have hrun : runCalls k (v :: rest) s =
        runCalls k rest { s with
          pend := fun k' => if k' = k then some v else s.pend k',
          writers := fun k' => if k' = k then some (armedW v) else s.writers k' } := by
      show List.foldl _ (execM (debD.setItem 0 k v) s) rest = _
      rw [execM, hstep]
      rfl
    rw [hrun, List.getLastD_cons]
    exact ih v _ (by simp)

theorem getLast?_cons_getLastD (a : String) (l : List String) :
    (a :: l).getLast? = some (l.getLastD a) := by
  induction l generalizing a with
  | nil => rfl
  | cons b l ih => rw [List.getLast?_cons_cons, ih b, List.getLastD_cons]

/-- C9: for every key k, issuing a synchronous burst of 100 setItem calls
through the debounce enhancer (wait 300, default maxWait 900) and then
advancing time by 300 ms (the armed timer fires at 300) results in exactly
one physical setItem on the wrapped adapter, for k, with the value of the
100th call. -/
theorem debounce_coalesce (k v : String) (vs : List String) (s0 : Store)
    (hlen : vs.length = 100) (hlast : vs.getLast? = some v) :
    (execM (debD.fire 300 k)
        (runCalls k vs ⟨(s0, []), fun _ => none, fun _ => none⟩)).inner.2 =
      [(k, v)] := by
  cases vs with
  | nil => simp at hlen
  | cons v1 rest =>
    have hfirst := deb_set_fresh k v1
      ⟨(s0, []), fun _ => none, fun _ => none⟩ rfl
    have hrun : runCalls k (v1 :: rest) ⟨(s0, []), fun _ => none, fun _ => none⟩ =
        runCalls k rest ⟨(s0, []),
          fun k' => if k' = k then some v1 else none,
          fun k' => if k' = k then some (armedW v1) else none⟩ := by
      show List.foldl _
        (execM (debD.setItem 0 k v1) ⟨(s0, []), fun _ => none, fun _ => none⟩)
        rest = _
      rw [execM, hfirst]
      rfl
    obtain ⟨hinner, hwriters⟩ := runCalls_armed k rest v1
      ⟨(s0, []),
        fun k' => if k' = k then some v1 else none,
        fun k' => if k' = k then some (armedW v1) else none⟩
      (by simp)
    have hlastv : rest.getLastD v1 = v := by
      rw [getLast?_cons_getLastD] at hlast
      exact Option.some.inj hlast
    have hw : (runCalls k rest (⟨(s0, []),
        fun k' => if k' = k then some v1 else none,
        fun k' => if k' = k then some (armedW v1) else none⟩ :
          DebState LogStore)).writers k = some (armedW v) := by
      rw [hwriters, hlastv]
    rw [hrun, execM, deb_fire_armed k v _ hw]
    simp [hinner]

/-- Witness for C9 at a concrete burst: 99 calls with "a" then one with
"b" (100 calls total), timer fired at 300, exactly one physical write of
the 100th value. -/
theorem debounce_coalesce_witness :
    (List.replicate 99 "a" ++ ["b"]).length = 100 ∧
    (List.replicate 99 "a" ++ ["b"]).getLast? = some "b" ∧
    (execM (debD.fire 300 "k")
        (runCalls "k" (List.replicate 99 "a" ++ ["b"])
          ⟨(Store.empty, []), fun _ => none, fun _ => none⟩)).inner.2 =
      [("k", "b")] :=
  ⟨by decide, by decide,
    debounce_coalesce "k" "b" (List.replicate 99 "a" ++ ["b"]) Store.empty
      (by decide) (by decide)⟩

/-- HydrationState as owned by the persistent store factory
(factory.ts): hasHydrated, hydrationError (an error message or null) and
usedFallback. -/
structure HydrationState where
  hasHydrated : Bool
  hydrationError : Option String
  usedFallback : Bool
deriving DecidableEq

/-- The unit the persist middleware reads and writes: a state of shape S
plus the persisted version number (zustand StorageValue). -/
structure StorageValue (S : Type) where
  state : S
  version : Nat

/-- The store's validation-failure policy (onValidationFail). -/
inductive Policy where
  | reset
  | keep
deriving DecidableEq

/-- The getItem decorator of withHydrationValidation (factory.ts): an
absent stored value passes through; otherwise the schema (modelled as a
partial parse function, Zod safeParse returning the parsed state on
success) validates the loaded state.  On success the parsed state replaces
the raw one; on failure, policy keep returns the invalid value as-is and
policy reset returns null so the persist middleware falls back to the
initial state.  The returned flag records whether onFallback ran, which
sets usedFallback in the hydration state. -/
def validatedGetItem {S : Type} (schema : S → Option S) (onInvalid : Policy)
    (stored : Option (StorageValue S)) : Option (StorageValue S) × Bool :=
  match stored with
  | none => (none, false)
  | some sv =>
    match schema sv.state with
    | some parsed => (some { sv with state := parsed }, false)
    | none =>
      match onInvalid with
      | Policy.keep => (some sv, true)
      | Policy.reset => (none, true)

/-- Modelled from the zustand persist middleware the factory wraps stores
with: after storage.getItem resolves, an absent value leaves the current
(initial) state; a present value whose version differs from the declared
one is migrated when a migrate function exists (the migrated flag is
returned, the middleware then re-persists) and is otherwise dropped with
an error log, keeping the current state; a matching version is merged
in (modelled as replacement, the default shallow merge over a fully
persisted state). -/
def persistRehydrate {S : Type} (got : Option (StorageValue S)) (version : Nat)
    (migrate : Option (S → Nat → S)) (current : S) : S × Bool :=
  match got with
  | some sv =>
    if sv.version ≠ version then
      match migrate with
      | some m => (m sv.state sv.version, true)
      | none => (current, false)
    else (sv.state, false)
  | none => (current, false)

/-- One full hydration of a store configured with a schema: the validation
decorator runs inside storage.getItem, then the persist middleware applies
the version/migration logic to whatever the decorated getItem returned,
and the onRehydrateStorage callback records hasHydrated true with a null
error (nothing threw); usedFallback was set iff onFallback ran during
validation.  Returns the resulting in-memory state, whether migrate ran,
and the final HydrationState. -/
def hydrateStore {S : Type} (schema : S → Option S) (pol : Policy)
    (version : Nat) (migrate : Option (S → Nat → S)) (initial : S)
    (stored : Option (StorageValue S)) : S × Bool × HydrationState :=
  let got := validatedGetItem schema pol stored
  let res := persistRehydrate got.1 version migrate initial
  (res.1, res.2, ⟨true, none, got.2⟩)

/-- C7 counterexample: store over S = Int with schema accepting exactly
the nonnegative integers, policy reset, current version 2, migration
negating the old state.  The backend holds version 1 with state -5.  Were
migration applied before validation, hydration would yield 5 (migrate
(-5) = 5, which validates); the code validates first, discards -5 under
reset, never migrates, and yields the initial state 0. -/
theorem hydration_migrate_order_cex :
    hydrateStore (fun x : Int => if 0 ≤ x then some x else none) Policy.reset
        2 (some (fun x _ => -x)) 0 (some ⟨-5, 1⟩) =
      (0, false, ⟨true, none, true⟩) ∧
    (0 : Int) ≠ 5 ∧ ((false : Bool) ≠ true) := by
  refine ⟨rfl, by decide, by decide⟩

/-- C7 (amended): for a store with a schema, a version and a migration
function, schema validation of the loaded state runs before the version
check and migration: when validation succeeds and the stored version
differs, the migration function is applied to the validated state; when
validation fails under policy reset, the stored value is discarded and the
migration function is never applied. -/
theorem hydration_validate_before_migrate {S : Type} (schema : S → Option S)
    (version : Nat) (m : S → Nat → S) (initial : S) (sv : StorageValue S) :
    (∀ parsed, schema sv.state = some parsed → sv.version ≠ version →
      hydrateStore schema Policy.reset version (some m) initial (some sv) =
        (m parsed sv.version, true, ⟨true, none, false⟩)) ∧
    (schema sv.state = none →
      hydrateStore schema Policy.reset version (some m) initial (some sv) =
        (initial, false, ⟨true, none, true⟩)) := by
  constructor
  · intro parsed hp hv
    simp [hydrateStore, validatedGetItem, persistRehydrate, hp, hv]
  · intro hp
    simp [hydrateStore, validatedGetItem, persistRehydrate, hp]

/-- Witness for C7's amended theorem at concrete inputs (S = Int, schema
accepting nonnegative integers, migration negating the state). -/
theorem hydration_validate_before_migrate_witness :
    hydrateStore (fun x : Int => if 0 ≤ x then some x else none) Policy.reset
        2 (some (fun x _ => -x)) 0 (some ⟨5, 1⟩) =
      (-5, true, ⟨true, none, false⟩) ∧
    hydrateStore (fun x : Int => if 0 ≤ x then some x else none) Policy.reset
        2 (some (fun x _ => -x)) 0 (some ⟨-7, 1⟩) =
      (0, false, ⟨true, none, true⟩) :=
  ⟨(hydration_validate_before_migrate (fun x : Int => if 0 ≤ x then some x else none)
      2 (fun x _ => -x) 0 ⟨5, 1⟩).1 5 (by decide) (by decide),
    (hydration_validate_before_migrate (fun x : Int => if 0 ≤ x then some x else none)
      2 (fun x _ => -x) 0 ⟨-7, 1⟩).2 (by decide)⟩

/-- C8 counterexample: policy keep with a stored version (1) differing
from the declared version (2) and no migrate function: the invalid kept
value is then dropped by the version check, so the in-memory state is the
initial 0, not the invalid loaded value -7 "as-is". -/
theorem hydration_fallback_cex :
    hydrateStore (fun x : Int => if 0 ≤ x then some x else none) Policy.keep
        2 none 0 (some ⟨-7, 1⟩) = (0, false, ⟨true, none, true⟩) ∧
    (0 : Int) ≠ -7 := by
  refine ⟨rfl, by decide⟩

/-- C8 (amended): for a store with a schema, loading a persisted value
that fails schema validation yields, under policy reset, the caller's
initial state with usedFallback true; under policy keep, provided the
stored version equals the declared version, the invalid value as-is with
usedFallback true; in both cases hydrationError is null because the load
itself did not fail. -/
theorem hydration_fallback {S : Type} (schema : S → Option S) (version : Nat)
    (migrate : Option (S → Nat → S)) (initial : S) (sv : StorageValue S)
    (hfail : schema sv.state = none) :
    hydrateStore schema Policy.reset version migrate initial (some sv) =
      (initial, false, ⟨true, none, true⟩) ∧
    (sv.version = version →
      hydrateStore schema Policy.keep version migrate initial (some sv) =
        (sv.state, false, ⟨true, none, true⟩)) := by
  constructor
  · simp [hydrateStore, validatedGetItem, persistRehydrate, hfail]
  · intro hvers
    simp [hydrateStore, validatedGetItem, persistRehydrate, hfail, hvers]

/-- Witness for C8's amended theorem at concrete inputs. -/
theorem hydration_fallback_witness :
    hydrateStore (fun x : Int => if 0 ≤ x then some x else none) Policy.reset
        2 none 0 (some ⟨-7, 2⟩) = (0, false, ⟨true, none, true⟩) ∧
    hydrateStore (fun x : Int => if 0 ≤ x then some x else none) Policy.keep
        2 none 0 (some ⟨-7, 2⟩) = (-7, false, ⟨true, none, true⟩) :=
  ⟨(hydration_fallback (fun x : Int => if 0 ≤ x then some x else none)
      2 none 0 ⟨-7, 2⟩ (by decide)).1,
    (hydration_fallback (fun x : Int => if 0 ≤ x then some x else none)
      2 none 0 ⟨-7, 2⟩ (by decide)).2 rfl⟩

/-- Runtime hydration bookkeeping of one store instance right after
construction: the BehaviorSubject's HydrationState and whether the
asynchronous rehydration read is still in flight. -/
structure FactoryRun where
  hyd : HydrationState
  loadDone : Bool
deriving DecidableEq

/-- State at construction: hasHydrated false, no error, no fallback; over
an asynchronous backend the rehydration read kicked off by the persist
middleware has not yet resolved. -/
def constructRun : FactoryRun := ⟨⟨false, none, false⟩, false⟩

/-- The microtask queued at construction when skipHydration is false: if
the rehydration callback has not already set hasHydrated, set it to true
unconditionally, without consulting the storage load. -/
def microtaskStep (skipHydration : Bool) (r : FactoryRun) : FactoryRun :=
  if skipHydration then r
  else if r.hyd.hasHydrated then r
  else { r with hyd := { r.hyd with hasHydrated := true } }

/-- waitForHydration resolves immediately iff hasHydrated is already true
(otherwise it awaits the first state with hasHydrated). -/
def waitForHydrationResolvesNow (r : FactoryRun) : Bool := r.hyd.hasHydrated

/-- C10: with skipHydration false, the queued microtask sets hasHydrated
to true even though the asynchronous rehydration read is still in flight
(loadDone is still false), and waitForHydration resolves immediately at
that point. -/
theorem microtask_hydration_unverified :
    (microtaskStep false constructRun).hyd.hasHydrated = true ∧
    (microtaskStep false constructRun).loadDone = false ∧
    waitForHydrationResolvesNow (microtaskStep false constructRun) = true := by
  refine ⟨rfl, rfl, rfl⟩

end WalletStorage
